import Mathlib

/-!
Verification of the iq-core board/placement engine.

A shallow embedding of `src/services/gameLogic.ts` and `src/constants.ts`:
the coordinate geometry (`rotatePoint`, `getTransformedCoordinates`), the
placement validator (`isValidPlacement`), the occupancy-board builder
(`getBoardGrid`), the per-piece variation cache (`precomputeVariations`),
the backtracking solver (`solveRecursively`) and the level generator
(`generateValidBoard`, `generateLevel`).

Modelling conventions:
* TypeScript numbers used as grid coordinates are `Int` (they are only ever
  integers in this code); rotations are `Nat` degrees.
* `boolean[][]` / `(string | null)[][]` grids are `List (List Bool)` /
  `List (List (Option String))`; in-bounds element access (the only access
  the code performs, since it bounds-checks first) is `List.getD`.
* `Math.random()`-driven shuffles are made explicit parameters: the shuffled
  piece order and the shuffled variation table are inputs, quantified over
  in the theorems, so every statement covers every outcome of the shuffles.
* The solver's in-place mutation of its private boolean grid is replaced by
  passing the updated grid to the recursive call; un-marking on backtrack is
  then the identity (the sibling branch still holds the old grid).
-/

namespace IQCore

/-- `Coordinate` from `types.ts`: an integer pair. -/
structure Coordinate where
  x : Int
  y : Int
deriving DecidableEq, Repr

/-- `PieceDef` from `types.ts` (`color` is an opaque display attribute). -/
structure PieceDef where
  id : String
  color : String
  initialShape : List Coordinate
deriving DecidableEq, Repr

/-- `PlacedPiece` from `types.ts`; the optional `isLocked` defaults to false. -/
structure PlacedPiece where
  id : String
  x : Int
  y : Int
  rotation : Nat
  isFlipped : Bool
  isLocked : Bool := false
deriving DecidableEq, Repr

/-- `GRID_ROWS` from `constants.ts`. -/
def GRID_ROWS : Nat := 5

/-- `GRID_COLS` from `constants.ts`. -/
def GRID_COLS : Nat := 11

/-- `PIECE_DEFINITIONS` from `constants.ts`: the fixed 12-piece catalog. -/
def PIECE_DEFINITIONS : List PieceDef := [
  { id := "L", color := "shadow-[0_0_15px_#ffffff] bg-[#ffffff] border-[#e0e0e0]",
    initialShape := [⟨0,0⟩, ⟨1,0⟩, ⟨0,1⟩] },
  { id := "J", color := "shadow-[0_0_15px_#a855f7] bg-[#a855f7] border-[#d8b4fe]",
    initialShape := [⟨0,0⟩, ⟨1,0⟩, ⟨2,0⟩, ⟨1,1⟩] },
  { id := "I", color := "shadow-[0_0_15px_#ec4899] bg-[#ec4899] border-[#fbcfe8]",
    initialShape := [⟨0,0⟩, ⟨1,0⟩, ⟨2,0⟩, ⟨0,1⟩] },
  { id := "K", color := "shadow-[0_0_15px_#3b82f6] bg-[#3b82f6] border-[#93c5fd]",
    initialShape := [⟨0,0⟩, ⟨1,0⟩, ⟨1,1⟩, ⟨2,1⟩] },
  { id := "A", color := "shadow-[0_0_15px_#ef4444] bg-[#ef4444] border-[#fca5a5]",
    initialShape := [⟨0,0⟩, ⟨1,0⟩, ⟨0,1⟩, ⟨1,1⟩, ⟨0,2⟩] },
  { id := "B", color := "shadow-[0_0_15px_#f97316] bg-[#f97316] border-[#fdba74]",
    initialShape := [⟨0,0⟩, ⟨0,1⟩, ⟨1,1⟩, ⟨1,2⟩, ⟨2,2⟩] },
  { id := "C", color := "shadow-[0_0_15px_#eab308] bg-[#eab308] border-[#fde047]",
    initialShape := [⟨0,0⟩, ⟨1,0⟩, ⟨0,1⟩, ⟨0,2⟩, ⟨1,2⟩] },
  { id := "D", color := "shadow-[0_0_15px_#22c55e] bg-[#22c55e] border-[#86efac]",
    initialShape := [⟨0,0⟩, ⟨1,0⟩, ⟨2,0⟩, ⟨3,0⟩, ⟨0,1⟩] },
  { id := "E", color := "shadow-[0_0_15px_#06b6d4] bg-[#06b6d4] border-[#67e8f9]",
    initialShape := [⟨0,0⟩, ⟨1,0⟩, ⟨2,0⟩, ⟨3,0⟩, ⟨1,1⟩] },
  { id := "F", color := "shadow-[0_0_15px_#0ea5e9] bg-[#0ea5e9] border-[#7dd3fc]",
    initialShape := [⟨0,0⟩, ⟨1,0⟩, ⟨2,0⟩, ⟨0,1⟩, ⟨0,2⟩] },
  { id := "G", color := "shadow-[0_0_15px_#d946ef] bg-[#d946ef] border-[#f0abfc]",
    initialShape := [⟨1,0⟩, ⟨2,0⟩, ⟨0,1⟩, ⟨1,1⟩, ⟨1,2⟩] },
  { id := "H", color := "shadow-[0_0_15px_#84cc16] bg-[#84cc16] border-[#bef264]",
    initialShape := [⟨0,0⟩, ⟨1,0⟩, ⟨1,1⟩, ⟨2,1⟩, ⟨3,1⟩] }
]

/-- The catalog's piece ids, `PIECE_DEFINITIONS.map(p => p.id)`
(`generateValidBoard` shuffles this list). -/
def catalogIds : List String := PIECE_DEFINITIONS.map (fun p => p.id)

/-- `rotatePoint` from `gameLogic.ts`: apply `(x, y) ↦ (-y, x)` `times` times. -/
def rotatePoint (point : Coordinate) (times : Nat) : Coordinate :=
  match times with
  | 0 => point
  | t + 1 => rotatePoint ⟨-point.y, point.x⟩ t

/-- `getTransformedCoordinates` from `gameLogic.ts`: look the piece up in the
catalog (unknown id gives `[]`), flip (negate x) when `isFlipped`, then rotate
by `(rotation % 360) / 90` quarter turns. -/
def getTransformedCoordinates (pieceId : String) (rotation : Nat) (isFlipped : Bool) :
    List Coordinate :=
  match PIECE_DEFINITIONS.find? (fun p => p.id == pieceId) with
  | none => []
  | some d =>
    let coords := d.initialShape.map (fun p => { x := if isFlipped then -p.x else p.x, y := p.y })
    let rotationCount := (rotation % 360) / 90
    coords.map (fun p => rotatePoint p rotationCount)

/-- In-bounds cell read of a `(string | null)[][]` board (the code reads
`currentBoard[y][x]` only after its bounds checks pass). -/
def boardCellAt (board : List (List (Option String))) (x y : Int) : Option String :=
  (board.getD y.toNat []).getD x.toNat none

/-- `isValidPlacement` from `gameLogic.ts`: every transformed cell, translated
by the origin, must lie inside `[0, GRID_COLS) × [0, GRID_ROWS)` and land on a
`null` board cell (the loop's early `return false` is `List.all`). -/
def isValidPlacement (pieceId : String) (gridX gridY : Int) (rotation : Nat)
    (isFlipped : Bool) (currentBoard : List (List (Option String))) : Bool :=
  (getTransformedCoordinates pieceId rotation isFlipped).all fun coord =>
    let targetX := gridX + coord.x
    let targetY := gridY + coord.y
    if targetX < 0 ∨ targetX ≥ (GRID_COLS : Int) ∨ targetY < 0 ∨ targetY ≥ (GRID_ROWS : Int) then
      false
    else if boardCellAt currentBoard targetX targetY ≠ none then
      false
    else
      true

/-- One cell write of `getBoardGrid`'s `grid[y][x] = piece.id`. -/
def setBoardCell (grid : List (List (Option String))) (x y : Nat) (v : Option String) :
    List (List (Option String)) :=
  grid.set y ((grid.getD y []).set x v)

/-- `getBoardGrid` from `gameLogic.ts`: a `GRID_ROWS × GRID_COLS` grid of
`null`, then each placed piece's transformed shape translated by its origin is
marked with the piece id (out-of-bounds cells silently skipped). -/
def getBoardGrid (placedPieces : List PlacedPiece) : List (List (Option String)) :=
  placedPieces.foldl
    (fun grid piece =>
      (getTransformedCoordinates piece.id piece.rotation piece.isFlipped).foldl
        (fun g c =>
          let x := piece.x + c.x
          let y := piece.y + c.y
          if 0 ≤ x ∧ x < (GRID_COLS : Int) ∧ 0 ≤ y ∧ y < (GRID_ROWS : Int) then
            setBoardCell g x.toNat y.toNat (some piece.id)
          else g)
        grid)
    (List.replicate GRID_ROWS (List.replicate GRID_COLS (none : Option String)))

/-- The absolute cells a `PlacedPiece` occupies when replayed through the
geometry module the way `getBoardGrid` does: the stored orientation's
transformed shape translated by the stored origin. -/
def cellsOfPlaced (p : PlacedPiece) : List Coordinate :=
  (getTransformedCoordinates p.id p.rotation p.isFlipped).map
    (fun c => ⟨p.x + c.x, p.y + c.y⟩)

/-- `PieceVariation` from `gameLogic.ts`: one deduplicated orientation with
its normalized coordinates. -/
structure PieceVariation where
  rotation : Nat
  isFlipped : Bool
  coords : List Coordinate
deriving DecidableEq, Repr

/-- The comparator `(a, b) => a.y - b.y || a.x - b.x` as a Boolean order:
lexicographic on `(y, x)`. -/
def coordLe (a b : Coordinate) : Bool :=
  decide (a.y < b.y) || (decide (a.y = b.y) && decide (a.x ≤ b.x))

/-- Insertion step of the stable sort by `coordLe`. -/
def insertSorted (c : Coordinate) : List Coordinate → List Coordinate
  | [] => [c]
  | d :: ds => if coordLe c d then c :: d :: ds else d :: insertSorted c ds

/-- A stable sort by `coordLe` (equal to what the JS stable `Array.sort`
with that comparator produces: ties are literally equal coordinates). -/
def sortCoords : List Coordinate → List Coordinate
  | [] => []
  | c :: cs => insertSorted c (sortCoords cs)

/-- `normalizeCoords` from `gameLogic.ts`: sort by `(y, x)`, then subtract the
first (topmost-leftmost) coordinate from every point. -/
def normalizeCoords (coords : List Coordinate) : List Coordinate :=
  match sortCoords coords with
  | [] => []
  | c0 :: rest => (c0 :: rest).map (fun c => ⟨c.x - c0.x, c.y - c0.y⟩)

/-- The `flips.forEach × rotations.forEach` enumeration order of
`precomputeVariations`: `(isFlipped, rotation)` pairs. -/
def orientationOrder : List (Bool × Nat) :=
  [false, true].foldr (fun f acc => ([0, 90, 180, 270].map (fun r => (f, r))) ++ acc) []

/-- One `precomputeVariations` loop step: keep the variation unless its
normalized shape (the `JSON.stringify` signature) was already seen. -/
def variationStep (pieceId : String) (acc : List PieceVariation × List (List Coordinate))
    (p : Bool × Nat) : List PieceVariation × List (List Coordinate) :=
  if normalizeCoords (getTransformedCoordinates pieceId p.2 p.1) ∈ acc.2 then acc
  else
    (acc.1 ++ [{ rotation := p.2, isFlipped := p.1,
                 coords := normalizeCoords (getTransformedCoordinates pieceId p.2 p.1) }],
     normalizeCoords (getTransformedCoordinates pieceId p.2 p.1) :: acc.2)

/-- `precomputeVariations` from `gameLogic.ts` for one piece id, before the
final `sort(() => Math.random() - 0.5)` shuffle: the deduplicated variation
list in enumeration order.  The cached `PRECOMPUTED_VARIATIONS[pieceId]` the
program actually uses is some permutation of this list; the theorems quantify
over a variation table `vtab` that is pointwise a permutation of this one. -/
def precomputedVariations (pieceId : String) : List PieceVariation :=
  (orientationOrder.foldl (variationStep pieceId) ([], [])).1

/-- One boolean cell read of the solver's grid (in bounds in every reachable
call, since the solver bounds-checks first). -/
def getCellB (grid : List (List Bool)) (x y : Nat) : Bool :=
  (grid.getD y []).getD x false

/-- One boolean cell write of the solver's grid. -/
def setCellB (grid : List (List Bool)) (x y : Nat) : List (List Bool) :=
  grid.set y ((grid.getD y []).set x true)

/-- The solver's scan order: top-to-bottom, left-to-right, as `(x, y)` pairs. -/
def scanPositions : List (Nat × Nat) :=
  (List.range GRID_ROWS).foldr
    (fun y acc => ((List.range GRID_COLS).map (fun x => (x, y))) ++ acc) []

/-- The solver's first-empty-cell scan (`found` / `emptyX` / `emptyY`). -/
def findEmptyCell (grid : List (List Bool)) : Option (Nat × Nat) :=
  scanPositions.find? (fun p => !getCellB grid p.1 p.2)

/-- The solver's fit check for a variation's normalized coords anchored at the
selected empty cell: each translated cell in bounds and not yet occupied. -/
def fitsAt (grid : List (List Bool)) (ex ey : Nat) (cs : List Coordinate) : Bool :=
  cs.all fun c =>
    let tx := (ex : Int) + c.x
    let ty := (ey : Int) + c.y
    if tx < 0 ∨ tx ≥ (GRID_COLS : Int) ∨ ty < 0 ∨ ty ≥ (GRID_ROWS : Int) then false
    else !getCellB grid tx.toNat ty.toNat

/-- The solver's `grid[emptyY + c.y][emptyX + c.x] = true` loop (only reached
after `fitsAt` holds, so every written cell is in bounds). -/
def placeCells (grid : List (List Bool)) (ex ey : Nat) (cs : List Coordinate) :
    List (List Bool) :=
  cs.foldl (fun g c => setCellB g ((ex : Int) + c.x).toNat ((ey : Int) + c.y).toNat) grid

/-- The `PlacedPiece` record the solver constructs on success: re-derive the
untransformed shape's natural anchor (first cell of the raw transformed shape
sorted by `(y, x)`) and store the origin that re-aligns it with the selected
empty cell. -/
def mkPlacedPiece (pieceId : String) (ex ey : Nat) (v : PieceVariation) : PlacedPiece :=
  let rawShape := getTransformedCoordinates pieceId v.rotation v.isFlipped
  let sortedRaw := sortCoords rawShape
  let anchorOffsetX := (sortedRaw.headD ⟨0, 0⟩).x
  let anchorOffsetY := (sortedRaw.headD ⟨0, 0⟩).y
  { id := pieceId, x := (ex : Int) - anchorOffsetX, y := (ey : Int) - anchorOffsetY,
    rotation := v.rotation, isFlipped := v.isFlipped, isLocked := true }

/-- The solver's `for (const v of variations)` loop: try each variation at the
selected empty cell; on a fit recurse on the placed grid, succeed by
prepending the constructed `PlacedPiece`, otherwise fall through to the next
variation (functionally, backtracking needs no explicit un-marking). -/
def tryVariations (recurse : List (List Bool) → Option (List PlacedPiece))
    (grid : List (List Bool)) (ex ey : Nat) (pieceId : String) :
    List PieceVariation → Option (List PlacedPiece)
  | [] => none
  | v :: vs =>
    if fitsAt grid ex ey v.coords then
      match recurse (placeCells grid ex ey v.coords) with
      | some result => some (mkPlacedPiece pieceId ex ey v :: result)
      | none => tryVariations recurse grid ex ey pieceId vs
    else tryVariations recurse grid ex ey pieceId vs

/-- `solveRecursively` from `gameLogic.ts`, parameterized by the variation
table `vtab` (the program's `PRECOMPUTED_VARIATIONS`, whose per-piece order is
a random shuffle): no pieces left is success; otherwise scan for the first
empty cell (none left also returns success, the code's defensive base case)
and try the head piece's variations there. -/
def solveRecursivelyWith (vtab : String → List PieceVariation) :
    List String → List (List Bool) → Option (List PlacedPiece)
  | [], _ => some []
  | pieceId :: restIds, grid =>
    match findEmptyCell grid with
    | none => some []
    | some p =>
      tryVariations (fun g => solveRecursivelyWith vtab restIds g) grid p.1 p.2 pieceId
        (vtab pieceId)

/-- `solveRecursively` with the deterministic (unshuffled) variation cache,
in the source's argument order. -/
def solveRecursively (grid : List (List Bool)) (remainingPieceIds : List String) :
    Option (List PlacedPiece) :=
  solveRecursivelyWith precomputedVariations remainingPieceIds grid

/-- `generateValidBoard`'s step 1: the empty `GRID_ROWS × GRID_COLS` grid. -/
def initialGrid : List (List Bool) :=
  List.replicate GRID_ROWS (List.replicate GRID_COLS false)

/-- One attempt of `generateValidBoard` from `gameLogic.ts`, with the two
`Math.random()` outcomes explicit: `vtab` is the (shuffled) variation cache
and `order` the shuffled catalog id list. `none` is the case in which the
source retries with a fresh shuffle. -/
def generateValidBoard (vtab : String → List PieceVariation) (order : List String) :
    Option (List PlacedPiece) :=
  solveRecursivelyWith vtab order initialGrid

/-- The retry recursion of `generateValidBoard` unrolled: the result after at
most `n` attempts, attempt `k` using piece order `shuffles k`.  The source
returns the first attempt whose solve succeeds and otherwise recurses with no
cap, so it returns a value precisely when some attempt succeeds. -/
def generateValidBoardAttempts (vtab : String → List PieceVariation)
    (shuffles : Nat → List String) (n : Nat) : Option (List PlacedPiece) :=
  (List.range n).findSome? (fun k => generateValidBoard vtab (shuffles k))

/-- `generateLevel`'s difficulty computation from `gameLogic.ts`:
`Math.round(maxLocked - ((levelNum - 1) / 99) * (maxLocked - minLocked))`
with `maxLocked = 10`, `minLocked = 3`, clamped by
`Math.max(minLocked, Math.min(maxLocked, lockedCount))`.  JS number
arithmetic is exact rational arithmetic here (`Math.round(x) = ⌊x + 1/2⌋`,
which is `round` on `ℚ`; for every integer input the intermediate double
rounding cannot cross a half-integer boundary, `14(n-1) = 99(2k+1)` having
no integer solutions). -/
def lockedCountFor (levelNum : Int) : Int :=
  max 3 (min 10 (round ((10 : ℚ) - (((levelNum : ℚ) - 1) / 99) * (10 - 3))))

/-- Steps 2-3 of `generateLevel` from `gameLogic.ts`, with the
`Math.random()` outcomes explicit: `shuffledSolution` is the full solution
returned by `generateValidBoard` after the `sort(() => Math.random() - 0.5)`
shuffle; the first `lockedCount` pieces are kept, each marked locked. -/
def generateLevelWith (shuffledSolution : List PlacedPiece) (levelNum : Int) :
    List PlacedPiece :=
  (shuffledSolution.take (lockedCountFor levelNum).toNat).map
    (fun p => { p with isLocked := true })

/-- The single quarter-turn `(x, y) ↦ (-y, x)` of the spec's transform
description. -/
def rotationStep (p : Coordinate) : Coordinate := ⟨-p.y, p.x⟩

/-- Modelled from the spec's words for the geometry transform: "apply flip
(negate x) first, then rotate by `rotation/90` quarter-turns … using the
standard 2-D rotation (x,y)→(−y,x) iterated; … Unknown pieceId yields an
empty sequence".  Stated independently of `getTransformedCoordinates` (single
iterate of `rotationStep`, no loop) to compare the two. -/
def specTransform (pieceId : String) (rotation : Nat) (isFlipped : Bool) : List Coordinate :=
  match PIECE_DEFINITIONS.find? (fun p => p.id == pieceId) with
  | none => []
  | some d =>
    d.initialShape.map (fun p =>
      rotationStep^[rotation / 90] ⟨if isFlipped then -p.x else p.x, p.y⟩)

/-- Modelled from the spec's words for the placement validator: "placement is
invalid (returns false) if any cell falls outside [0,cols)×[0,rows) or lands
on a non-empty board cell; otherwise valid". -/
def specIsValidPlacement (pieceId : String) (gridX gridY : Int) (rotation : Nat)
    (isFlipped : Bool) (board : List (List (Option String))) : Bool :=
  !decide (∃ c ∈ getTransformedCoordinates pieceId rotation isFlipped,
    gridX + c.x < 0 ∨ gridX + c.x ≥ (GRID_COLS : Int) ∨
    gridY + c.y < 0 ∨ gridY + c.y ≥ (GRID_ROWS : Int) ∨
    boardCellAt board (gridX + c.x) (gridY + c.y) ≠ none)

/-- The 8-orientation orbit of a piece's normalized shape (2 flip states ×
4 rotations, in `precomputeVariations`'s enumeration order). -/
def orbitShapes (pieceId : String) : List (List Coordinate) :=
  orientationOrder.map (fun p => normalizeCoords (getTransformedCoordinates pieceId p.2 p.1))

/-- `tryVariations` instrumented with fuel threaded through the recursive
calls: outer `none` means the fuel ran out inside a recursive call. -/
def tryVariationsFuel (recurse : List (List Bool) → Option (Option (List PlacedPiece)))
    (grid : List (List Bool)) (ex ey : Nat) (pieceId : String) :
    List PieceVariation → Option (Option (List PlacedPiece))
  | [] => some none
  | v :: vs =>
    if fitsAt grid ex ey v.coords then
      match recurse (placeCells grid ex ey v.coords) with
      | none => none
      | some (some result) => some (some (mkPlacedPiece pieceId ex ey v :: result))
      | some none => tryVariationsFuel recurse grid ex ey pieceId vs
    else tryVariationsFuel recurse grid ex ey pieceId vs

/-- `solveRecursively` instrumented with a fuel counter that decreases by one
on every recursive call: `none` means the fuel was exhausted.  The claim that
the search terminates because every recursive call is on the tail of the
piece list is the theorem that `remainingPieceIds.length` fuel always
suffices. -/
def solveFuelWith (vtab : String → List PieceVariation) :
    Nat → List String → List (List Bool) → Option (Option (List PlacedPiece))
  | 0, _, _ => none
  | _ + 1, [], _ => some (some [])
  | fuel + 1, pieceId :: restIds, grid =>
    match findEmptyCell grid with
    | none => some (some [])
    | some p =>
      tryVariationsFuel (fun g => solveFuelWith vtab fuel restIds g) grid p.1 p.2 pieceId
        (vtab pieceId)

/-- Translation of a variation's normalized cell by the selected empty cell:
the absolute cell the solver marks. -/
def translateCell (ex ey : Nat) (c : Coordinate) : Coordinate :=
  ⟨(ex : Int) + c.x, (ey : Int) + c.y⟩

/-- A coordinate inside the board: `[0, GRID_COLS) × [0, GRID_ROWS)`. -/
def InBoundsCell (q : Coordinate) : Prop :=
  0 ≤ q.x ∧ q.x < (GRID_COLS : Int) ∧ 0 ≤ q.y ∧ q.y < (GRID_ROWS : Int)

instance (q : Coordinate) : Decidable (InBoundsCell q) := by
  unfold InBoundsCell; infer_instance

/-- A well-formed solver grid: `GRID_ROWS` rows of `GRID_COLS` cells. -/
def GridWF (grid : List (List Bool)) : Prop :=
  grid.length = GRID_ROWS ∧ ∀ row ∈ grid, row.length = GRID_COLS

/-- The number of empty cells of a solver grid. -/
def countEmpty (grid : List (List Bool)) : Nat :=
  scanPositions.countP (fun p => !getCellB grid p.1 p.2)

/-- The number of cells of a catalog piece (0 for an unknown id). -/
def pieceSize (pieceId : String) : Nat :=
  ((PIECE_DEFINITIONS.find? (fun p => p.id == pieceId)).map
    (fun d => d.initialShape.length)).getD 0

/-- Total cell count of a list of piece ids. -/
def totalSize (ids : List String) : Nat := (ids.map pieceSize).sum

/-- All 55 cells of the 5×11 board, as coordinates. -/
def allGridCells : List Coordinate :=
  scanPositions.map (fun p => ⟨(p.1 : Int), (p.2 : Int)⟩)

/-- The empty `(string | null)[][]` board. -/
def emptyBoardGrid : List (List (Option String)) :=
  List.replicate GRID_ROWS (List.replicate GRID_COLS (none : Option String))

/-! ## Concrete fixtures used by the witness theorems -/

/-- A concrete shuffle outcome for which the solver succeeds (about 1 in 200
shuffles do; this one was picked for a small search tree). -/
def goodOrder : List String := ["A", "F", "L", "D", "J", "K", "G", "C", "B", "I", "E", "H"]

/-- The solution the solver returns for `goodOrder` with the deterministic
variation cache. -/
def goodSolution : List PlacedPiece := [
  { id := "A", x := 0, y := 0, rotation := 0, isFlipped := false, isLocked := true },
  { id := "F", x := 2, y := 0, rotation := 0, isFlipped := false, isLocked := true },
  { id := "L", x := 6, y := 0, rotation := 90, isFlipped := false, isLocked := true },
  { id := "D", x := 10, y := 0, rotation := 0, isFlipped := true, isLocked := true },
  { id := "J", x := 3, y := 1, rotation := 0, isFlipped := false, isLocked := true },
  { id := "K", x := 8, y := 1, rotation := 0, isFlipped := true, isLocked := true },
  { id := "G", x := 10, y := 1, rotation := 90, isFlipped := false, isLocked := true },
  { id := "C", x := 1, y := 3, rotation := 270, isFlipped := false, isLocked := true },
  { id := "B", x := 3, y := 4, rotation := 270, isFlipped := false, isLocked := true },
  { id := "I", x := 0, y := 4, rotation := 180, isFlipped := true, isLocked := true },
  { id := "E", x := 5, y := 4, rotation := 180, isFlipped := true, isLocked := true },
  { id := "H", x := 10, y := 4, rotation := 180, isFlipped := false, isLocked := true }]

/-- The solution the solver returns when asked to place only the piece `L`
on the empty grid. -/
def singleLSolution : List PlacedPiece :=
  [{ id := "L", x := 0, y := 0, rotation := 0, isFlipped := false, isLocked := true }]

/-- The first catalog entry (the piece `L`). -/
def firstPieceDef : PieceDef :=
  PIECE_DEFINITIONS.headD { id := "", color := "", initialShape := [] }

/-- Twelve placed pieces used to exercise the level generator's count
formula. -/
def twelvePieces : List PlacedPiece :=
  (List.range 12).map (fun k => ⟨"P", (k : Int), 0, 0, false, false⟩)

/-! ## Geometry lemmas -/

theorem rotatePoint_inj : ∀ (t : Nat) (a b : Coordinate),
    rotatePoint a t = rotatePoint b t → a = b
  | 0, _, _, h => h
  | t + 1, a, b, h => by
    have h2 := rotatePoint_inj t _ _ h
    cases a; cases b
    simp only [Coordinate.mk.injEq] at h2 ⊢
    omega

theorem insertSorted_perm (c : Coordinate) :
    ∀ (l : List Coordinate), (insertSorted c l).Perm (c :: l)
  | [] => List.Perm.refl _
  | d :: ds => by
    simp only [insertSorted]
    split
    · exact List.Perm.refl _
    · exact ((insertSorted_perm c ds).cons d).trans (List.Perm.swap c d ds)

theorem sortCoords_perm : ∀ (l : List Coordinate), (sortCoords l).Perm l
  | [] => List.Perm.refl _
  | c :: cs => (insertSorted_perm c (sortCoords cs)).trans ((sortCoords_perm cs).cons c)

theorem sortCoords_eq_nil {l : List Coordinate} (h : sortCoords l = []) : l = [] := by
  have hp := sortCoords_perm l
  rw [h] at hp
  exact (hp.symm).eq_nil

theorem getTransformedCoordinates_of_find {pieceId : String} {d : PieceDef}
    (hd : PIECE_DEFINITIONS.find? (fun p => p.id == pieceId) = some d) (r : Nat) (f : Bool) :
    getTransformedCoordinates pieceId r f =
      d.initialShape.map
        (fun p => rotatePoint ⟨if f then -p.x else p.x, p.y⟩ ((r % 360) / 90)) := by
  simp only [getTransformedCoordinates, hd, List.map_map]
  rfl

theorem getTransformedCoordinates_of_no_find {pieceId : String}
    (hd : PIECE_DEFINITIONS.find? (fun p => p.id == pieceId) = none) (r : Nat) (f : Bool) :
    getTransformedCoordinates pieceId r f = [] := by
  simp only [getTransformedCoordinates, hd]

theorem find?_eq_none_of_not_mem {pieceId : String} (h : pieceId ∉ catalogIds) :
    PIECE_DEFINITIONS.find? (fun p => p.id == pieceId) = none := by
  rw [List.find?_eq_none]
  intro d hd hbeq
  exact h (List.mem_map.mpr ⟨d, hd, by simpa using hbeq⟩)

theorem find?_exists_of_mem {pieceId : String} (h : pieceId ∈ catalogIds) :
    ∃ d, PIECE_DEFINITIONS.find? (fun p => p.id == pieceId) = some d ∧
      d ∈ PIECE_DEFINITIONS ∧ d.id = pieceId := by
  obtain ⟨d, hd, hid⟩ := List.mem_map.mp h
  have hsome : (PIECE_DEFINITIONS.find? (fun p => p.id == pieceId)).isSome := by
    rw [List.find?_isSome]
    exact ⟨d, hd, by simp [hid]⟩
  obtain ⟨d2, hd2⟩ := Option.isSome_iff_exists.mp hsome
  refine ⟨d2, hd2, List.mem_of_find?_eq_some hd2, ?_⟩
  simpa using List.find?_some hd2

theorem transformFun_inj (f : Bool) (k : Nat) :
    Function.Injective (fun p : Coordinate => rotatePoint ⟨if f then -p.x else p.x, p.y⟩ k) := by
  intro a b h
  have h2 := rotatePoint_inj k _ _ h
  cases a; cases b
  simp only [Coordinate.mk.injEq] at h2 ⊢
  cases f <;> simp_all

theorem getTransformedCoordinates_nodup {pieceId : String} {d : PieceDef}
    (hd : PIECE_DEFINITIONS.find? (fun p => p.id == pieceId) = some d)
    (hn : d.initialShape.Nodup) (r : Nat) (f : Bool) :
    (getTransformedCoordinates pieceId r f).Nodup := by
  rw [getTransformedCoordinates_of_find hd]
  exact hn.map (transformFun_inj f ((r % 360) / 90))

theorem getTransformedCoordinates_length (pieceId : String) (r : Nat) (f : Bool) :
    (getTransformedCoordinates pieceId r f).length = pieceSize pieceId := by
  unfold pieceSize
  cases hd : PIECE_DEFINITIONS.find? (fun p => p.id == pieceId) with
  | none => rw [getTransformedCoordinates_of_no_find hd]; rfl
  | some d => rw [getTransformedCoordinates_of_find hd]; simp

theorem normalizeCoords_length (l : List Coordinate) :
    (normalizeCoords l).length = l.length := by
  unfold normalizeCoords
  cases hs : sortCoords l with
  | nil => rw [sortCoords_eq_nil hs]
  | cons c0 rest =>
    have := (sortCoords_perm l).length_eq
    rw [hs] at this
    simpa using this

theorem normalizeCoords_nodup {l : List Coordinate} (h : l.Nodup) :
    (normalizeCoords l).Nodup := by
  unfold normalizeCoords
  cases hs : sortCoords l with
  | nil => exact List.nodup_nil
  | cons c0 rest =>
    have hsn : (c0 :: rest).Nodup := by
      rw [← hs]
      exact ((sortCoords_perm l).nodup_iff).mpr h
    refine hsn.map ?_
    intro a b hab
    simp only [Coordinate.mk.injEq] at hab
    cases a; cases b
    simp only [Coordinate.mk.injEq] at hab ⊢
    omega

theorem translateCell_inj (ex ey : Nat) : Function.Injective (translateCell ex ey) := by
  intro a b h
  simp only [translateCell, Coordinate.mk.injEq] at h
  cases a; cases b
  simp only [Coordinate.mk.injEq] at h ⊢
  omega

/-- The solver's stored `PlacedPiece`, replayed through the geometry module
(`cellsOfPlaced`), occupies exactly (as a multiset) the variation's
normalized cells translated by the selected empty cell — the cells the
search marked occupied. -/
theorem cellsOfPlaced_mkPlacedPiece_perm (pieceId : String) (ex ey : Nat)
    (v : PieceVariation)
    (hv : v.coords = normalizeCoords (getTransformedCoordinates pieceId v.rotation v.isFlipped)) :
    (cellsOfPlaced (mkPlacedPiece pieceId ex ey v)).Perm
      (v.coords.map (translateCell ex ey)) := by
  rw [hv]
  simp only [cellsOfPlaced, mkPlacedPiece, normalizeCoords]
  cases hs : sortCoords (getTransformedCoordinates pieceId v.rotation v.isFlipped) with
  | nil =>
    rw [sortCoords_eq_nil hs]
    simp
  | cons c0 rest =>
    have hperm : (c0 :: rest).Perm (getTransformedCoordinates pieceId v.rotation v.isFlipped) := by
      rw [← hs]; exact sortCoords_perm _
    simp only [List.map_map, List.headD_cons]
    have h1 : (getTransformedCoordinates pieceId v.rotation v.isFlipped).map
          (fun c : Coordinate =>
            (⟨(ex : Int) - c0.x + c.x, (ey : Int) - c0.y + c.y⟩ : Coordinate)) =
        (getTransformedCoordinates pieceId v.rotation v.isFlipped).map
          (fun c : Coordinate => translateCell ex ey ⟨c.x - c0.x, c.y - c0.y⟩) := by
      apply List.map_congr_left
      intro c _
      simp only [translateCell, Coordinate.mk.injEq]
      constructor <;> omega
    have h2 : ((getTransformedCoordinates pieceId v.rotation v.isFlipped).map
          (fun c : Coordinate => translateCell ex ey ⟨c.x - c0.x, c.y - c0.y⟩)).Perm
        ((c0 :: rest).map
          (fun c : Coordinate => translateCell ex ey ⟨c.x - c0.x, c.y - c0.y⟩)) :=
      (hperm.map _).symm
    rw [h1]
    exact h2

/-! ## Grid lemmas -/

theorem gridWF_initialGrid : GridWF initialGrid := by
  constructor
  · rfl
  · intro row hrow
    rw [List.eq_of_mem_replicate hrow]
    rfl

theorem gridWF_setCellB {grid : List (List Bool)} (hW : GridWF grid) (x : Nat) {y : Nat}
    (hy : y < GRID_ROWS) : GridWF (setCellB grid x y) := by
  obtain ⟨hlen, hrows⟩ := hW
  have hylen : y < grid.length := by rw [hlen]; exact hy
  constructor
  · rw [setCellB, List.length_set, hlen]
  · intro row hrow
    rcases List.mem_or_eq_of_mem_set hrow with hmem | heq
    · exact hrows row hmem
    · subst heq
      rw [List.length_set]
      exact hrows _ (by rw [List.getD_eq_getElem _ _ hylen]; exact List.getElem_mem hylen)

theorem getCellB_setCellB {grid : List (List Bool)} (hW : GridWF grid)
    {x y x' y' : Nat} (hx : x < GRID_COLS) (hy : y < GRID_ROWS) (hy' : y' < GRID_ROWS) :
    getCellB (setCellB grid x y) x' y' =
      if x' = x ∧ y' = y then true else getCellB grid x' y' := by
  obtain ⟨hlen, hrows⟩ := hW
  have hylen : y < grid.length := by rw [hlen]; exact hy
  have hxlen : x < (grid.getD y []).length := by
    rw [List.getD_eq_getElem _ _ hylen]
    rw [hrows _ (List.getElem_mem hylen)]
    exact hx
  unfold getCellB setCellB
  simp only [List.getD_eq_getElem?_getD]
  rw [List.getElem?_set]
  by_cases hyy : y = y'
  · subst hyy
    rw [if_pos rfl, if_pos hylen, Option.getD_some, List.getElem?_set]
    by_cases hxx : x = x'
    · subst hxx
      have hxlen2 : x < ((grid[y]?).getD ([] : List Bool)).length := by
        rw [← List.getD_eq_getElem?_getD]; exact hxlen
      rw [if_pos rfl, if_pos hxlen2, Option.getD_some, if_pos ⟨rfl, rfl⟩]
    · rw [if_neg hxx, if_neg (by intro h; exact hxx h.1.symm)]
  · rw [if_neg hyy, if_neg (by intro h; exact hyy h.2.symm)]

theorem scanPositions_nodup : scanPositions.Nodup := by decide

theorem mem_scanPositions_of_lt : ∀ x, x < GRID_COLS → ∀ y, y < GRID_ROWS →
    (x, y) ∈ scanPositions := by decide

theorem lt_of_mem_scanPositions : ∀ p ∈ scanPositions, p.1 < GRID_COLS ∧ p.2 < GRID_ROWS := by
  decide

/-- `countP` drops by one when the predicate is turned off at exactly one
element of a duplicate-free list. -/
theorem countP_flip_one {α : Type} {l : List α} (hl : l.Nodup) {p0 : α} (hp : p0 ∈ l)
    {f g : α → Bool} (hf : f p0 = true) (hg : g p0 = false)
    (hfg : ∀ q ∈ l, q ≠ p0 → f q = g q) : l.countP f = l.countP g + 1 := by
  induction l with
  | nil => cases hp
  | cons a t ih =>
    rw [List.countP_cons, List.countP_cons]
    rcases List.mem_cons.mp hp with rfl | hpt
    · have hft : ∀ q ∈ t, f q = g q := by
        intro q hq
        exact hfg q (List.mem_cons_of_mem _ hq)
          (fun h => (List.nodup_cons.mp hl).1 (h ▸ hq))
      rw [List.countP_congr (fun q hq => by rw [hft q hq]), hf, hg]
      simp
    · have hap : a ≠ p0 := fun h => (List.nodup_cons.mp hl).1 (h ▸ hpt)
      rw [ih (List.nodup_cons.mp hl).2 hpt
        (fun q hq hqp => hfg q (List.mem_cons_of_mem _ hq) hqp)]
      rw [hfg a (List.mem_cons_self a t) hap]
      omega

/-- The in-bounds facts of a translated cell, in unfolded arithmetic form. -/
theorem translate_bounds {ex ey : Nat} {c : Coordinate}
    (h : InBoundsCell (translateCell ex ey c)) :
    0 ≤ (ex : Int) + c.x ∧ ((ex : Int) + c.x).toNat < GRID_COLS ∧
    0 ≤ (ey : Int) + c.y ∧ ((ey : Int) + c.y).toNat < GRID_ROWS := by
  obtain ⟨h1, h2, h3, h4⟩ := h
  simp only [translateCell] at h1 h2 h3 h4
  refine ⟨h1, ?_, h3, ?_⟩ <;> omega

theorem countEmpty_setCellB {grid : List (List Bool)} (hW : GridWF grid) {x y : Nat}
    (hx : x < GRID_COLS) (hy : y < GRID_ROWS)
    (hempty : getCellB grid x y = false) :
    countEmpty grid = countEmpty (setCellB grid x y) + 1 := by
  unfold countEmpty
  refine countP_flip_one scanPositions_nodup (mem_scanPositions_of_lt x hx y hy)
    (by simp [hempty]) ?_ ?_
  · show (!getCellB (setCellB grid x y) x y) = false
    rw [getCellB_setCellB hW hx hy hy]
    simp
  · intro q hq hqp
    obtain ⟨hq1, hq2⟩ := lt_of_mem_scanPositions q hq
    show (!getCellB grid q.1 q.2) = (!getCellB (setCellB grid x y) q.1 q.2)
    rw [getCellB_setCellB hW hx hy hq2]
    rw [if_neg]
    intro ⟨h1, h2⟩
    exact hqp (by cases q; simp_all)

/-- Reading a cell after the solver marks a variation's cells: the cell is
occupied iff it was occupied before or is one of the translated cells.
Stated for an in-bounds query on a well-formed grid, with every translated
cell in bounds (which `fitsAt` guarantees at every reachable call). -/
theorem getCellB_placeCells {ex ey : Nat} :
    ∀ (cs : List Coordinate) (grid : List (List Bool)), GridWF grid →
    (∀ c ∈ cs, InBoundsCell (translateCell ex ey c)) →
    ∀ (q : Coordinate), InBoundsCell q →
    (getCellB (placeCells grid ex ey cs) q.x.toNat q.y.toNat = true ↔
      (getCellB grid q.x.toNat q.y.toNat = true ∨ q ∈ cs.map (translateCell ex ey)))
  | [], grid, _, _, q, _ => by simp [placeCells]
  | c :: cs, grid, hW, hin, q, hq => by
    obtain ⟨hc1, hc2, hc3, hc4⟩ := translate_bounds (hin c (List.mem_cons_self c cs))
    obtain ⟨hq1, hq2, hq3, hq4⟩ := hq
    have hplace : placeCells grid ex ey (c :: cs) =
        placeCells (setCellB grid ((ex : Int) + c.x).toNat ((ey : Int) + c.y).toNat) ex ey cs :=
      rfl
    rw [hplace]
    have hW1 := gridWF_setCellB hW ((ex : Int) + c.x).toNat hc4
    rw [getCellB_placeCells cs _ hW1 (fun d hd => hin d (List.mem_cons_of_mem _ hd)) q
      ⟨hq1, hq2, hq3, hq4⟩]
    rw [@getCellB_setCellB grid hW (((ex : Int) + c.x).toNat) (((ey : Int) + c.y).toNat)
      q.x.toNat q.y.toNat hc2 hc4 (by omega)]
    have hqeq : (q.x.toNat = ((ex : Int) + c.x).toNat ∧ q.y.toNat = ((ey : Int) + c.y).toNat) ↔
        q = translateCell ex ey c := by
      cases q
      simp only [translateCell, Coordinate.mk.injEq]
      simp only at hq1 hq2 hq3 hq4
      constructor
      · intro ⟨u1, u2⟩; constructor <;> omega
      · intro ⟨u1, u2⟩; constructor <;> omega
    constructor
    · rintro (h | h)
      · by_cases he : q.x.toNat = ((ex : Int) + c.x).toNat ∧ q.y.toNat = ((ey : Int) + c.y).toNat
        · exact Or.inr (List.mem_map.mpr ⟨c, List.mem_cons_self c cs, (hqeq.mp he).symm⟩)
        · rw [if_neg he] at h
          exact Or.inl h
      · rcases List.mem_map.mp h with ⟨d, hd, hdq⟩
        exact Or.inr (List.mem_map.mpr ⟨d, List.mem_cons_of_mem _ hd, hdq⟩)
    · rintro (h | h)
      · left
        split
        · rfl
        · exact h
      · rcases List.mem_map.mp h with ⟨d, hd, hdq⟩
        rcases List.mem_cons.mp hd with rfl | hdcs
        · left
          rw [if_pos (hqeq.mpr hdq.symm)]
        · exact Or.inr (List.mem_map.mpr ⟨d, hdcs, hdq⟩)

theorem gridWF_placeCells {ex ey : Nat} :
    ∀ (cs : List Coordinate) (grid : List (List Bool)), GridWF grid →
    (∀ c ∈ cs, InBoundsCell (translateCell ex ey c)) →
    GridWF (placeCells grid ex ey cs)
  | [], grid, hW, _ => hW
  | c :: cs, grid, hW, hin => by
    obtain ⟨hc1, hc2, hc3, hc4⟩ := translate_bounds (hin c (List.mem_cons_self c cs))
    exact gridWF_placeCells cs _ (gridWF_setCellB hW _ hc4)
      (fun d hd => hin d (List.mem_cons_of_mem _ hd))

theorem countEmpty_placeCells {ex ey : Nat} :
    ∀ (cs : List Coordinate) (grid : List (List Bool)), GridWF grid →
    (∀ c ∈ cs, InBoundsCell (translateCell ex ey c)) →
    (∀ c ∈ cs, getCellB grid ((ex : Int) + c.x).toNat ((ey : Int) + c.y).toNat = false) →
    (cs.map (translateCell ex ey)).Nodup →
    countEmpty grid = countEmpty (placeCells grid ex ey cs) + cs.length
  | [], grid, _, _, _, _ => rfl
  | c :: cs, grid, hW, hin, hemp, hnd => by
    obtain ⟨hc1, hc2, hc3, hc4⟩ := translate_bounds (hin c (List.mem_cons_self c cs))
    have hstep := countEmpty_setCellB hW hc2 hc4 (hemp c (List.mem_cons_self c cs))
    set g1 := setCellB grid ((ex : Int) + c.x).toNat ((ey : Int) + c.y).toNat with hg1
    have hW1 : GridWF g1 := gridWF_setCellB hW _ hc4
    have hnd1 : (cs.map (translateCell ex ey)).Nodup := (List.nodup_cons.mp hnd).2
    have hemp1 : ∀ d ∈ cs,
        getCellB g1 ((ex : Int) + d.x).toNat ((ey : Int) + d.y).toNat = false := by
      intro d hd
      obtain ⟨hd1, hd2, hd3, hd4⟩ := translate_bounds (hin d (List.mem_cons_of_mem _ hd))
      rw [hg1, getCellB_setCellB hW hc2 hc4 hd4]
      rw [if_neg]
      · exact hemp d (List.mem_cons_of_mem _ hd)
      · intro ⟨h1, h2⟩
        have hne : translateCell ex ey d ≠ translateCell ex ey c := by
          intro h
          exact (List.nodup_cons.mp hnd).1 (h ▸ List.mem_map.mpr ⟨d, hd, rfl⟩)
        apply hne
        simp only [translateCell, Coordinate.mk.injEq]
        constructor <;> omega
    have hrec := countEmpty_placeCells cs g1 hW1
      (fun d hd => hin d (List.mem_cons_of_mem _ hd)) hemp1 hnd1
    have hplace : placeCells grid ex ey (c :: cs) = placeCells g1 ex ey cs := rfl
    rw [hplace, List.length_cons]
    omega

theorem findEmptyCell_none_countEmpty {grid : List (List Bool)}
    (h : findEmptyCell grid = none) : countEmpty grid = 0 := by
  rw [countEmpty, List.countP_eq_zero]
  intro p hp
  have := List.find?_eq_none.mp h p hp
  simpa using this

theorem findEmptyCell_some_spec {grid : List (List Bool)} {p : Nat × Nat}
    (h : findEmptyCell grid = some p) :
    p.1 < GRID_COLS ∧ p.2 < GRID_ROWS ∧ getCellB grid p.1 p.2 = false := by
  have hmem := List.mem_of_find?_eq_some h
  have hpred := List.find?_some h
  obtain ⟨h1, h2⟩ := lt_of_mem_scanPositions p hmem
  exact ⟨h1, h2, by simpa using hpred⟩

theorem countEmpty_zero_occupied {grid : List (List Bool)} (h : countEmpty grid = 0)
    {q : Coordinate} (hq : InBoundsCell q) : getCellB grid q.x.toNat q.y.toNat = true := by
  obtain ⟨hq1, hq2, hq3, hq4⟩ := hq
  have hx : q.x.toNat < GRID_COLS := by omega
  have hy : q.y.toNat < GRID_ROWS := by omega
  have hmem := mem_scanPositions_of_lt _ hx _ hy
  have := List.countP_eq_zero.mp h _ hmem
  simpa using this

/-! ## Variation cache and solver lemmas -/

/-- Every variation the cache fold accumulates carries the normalized
coordinates of its own orientation. -/
theorem variationFold_coords (pieceId : String) :
    ∀ (l : List (Bool × Nat)) (acc : List PieceVariation × List (List Coordinate)),
    (∀ v ∈ acc.1, v.coords =
      normalizeCoords (getTransformedCoordinates pieceId v.rotation v.isFlipped)) →
    ∀ v ∈ (l.foldl (variationStep pieceId) acc).1, v.coords =
      normalizeCoords (getTransformedCoordinates pieceId v.rotation v.isFlipped)
  | [], _, hacc => hacc
  | p :: l, acc, hacc => by
    rw [List.foldl_cons]
    refine variationFold_coords pieceId l _ ?_
    intro v hv
    unfold variationStep at hv
    by_cases hmem : normalizeCoords (getTransformedCoordinates pieceId p.2 p.1) ∈ acc.2
    · rw [if_pos hmem] at hv
      exact hacc v hv
    · rw [if_neg hmem] at hv
      rcases List.mem_append.mp hv with ha | hnew
      · exact hacc v ha
      · rw [List.mem_singleton.mp hnew]

theorem precomputedVariations_coords (pieceId : String) :
    ∀ v ∈ precomputedVariations pieceId, v.coords =
      normalizeCoords (getTransformedCoordinates pieceId v.rotation v.isFlipped) :=
  variationFold_coords pieceId orientationOrder ([], []) (by intro v hv; cases hv)

/-- Inversion of the solver's variation loop: a success names a fitting
variation of the list whose recursive call succeeded. -/
theorem tryVariations_eq_some {recurse : List (List Bool) → Option (List PlacedPiece)}
    {grid : List (List Bool)} {ex ey : Nat} {pieceId : String} {sol : List PlacedPiece} :
    ∀ {vs : List PieceVariation}, tryVariations recurse grid ex ey pieceId vs = some sol →
    ∃ v ∈ vs, fitsAt grid ex ey v.coords = true ∧
      ∃ r, recurse (placeCells grid ex ey v.coords) = some r ∧
        sol = mkPlacedPiece pieceId ex ey v :: r := by
  intro vs
  induction vs with
  | nil => intro h; cases h
  | cons v vs ih =>
    intro h
    rw [tryVariations] at h
    by_cases hfit : fitsAt grid ex ey v.coords = true
    · rw [if_pos hfit] at h
      cases hrec : recurse (placeCells grid ex ey v.coords) with
      | some r =>
        rw [hrec] at h
        refine ⟨v, List.mem_cons_self v vs, hfit, r, hrec, ?_⟩
        exact (Option.some.injEq _ _ ▸ h).symm
      | none =>
        rw [hrec] at h
        obtain ⟨w, hw, hfits, r, hr, heq⟩ := ih h
        exact ⟨w, List.mem_cons_of_mem _ hw, hfits, r, hr, heq⟩
    · rw [if_neg hfit] at h
      obtain ⟨w, hw, hfits, r, hr, heq⟩ := ih h
      exact ⟨w, List.mem_cons_of_mem _ hw, hfits, r, hr, heq⟩

/-- The fit check, unfolded: every translated cell in bounds and empty. -/
theorem fitsAt_spec {grid : List (List Bool)} {ex ey : Nat} {cs : List Coordinate}
    (h : fitsAt grid ex ey cs = true) :
    ∀ c ∈ cs, InBoundsCell (translateCell ex ey c) ∧
      getCellB grid ((ex : Int) + c.x).toNat ((ey : Int) + c.y).toNat = false := by
  intro c hc
  have := List.all_eq_true.mp h c hc
  simp only at this
  split at this
  · cases this
  · rename_i hout
    push_neg at hout
    obtain ⟨h1, h2, h3, h4⟩ := hout
    refine ⟨⟨?_, ?_, ?_, ?_⟩, by simpa using this⟩ <;> simp only [translateCell] <;> omega

theorem totalSize_cons (pieceId : String) (rest : List String) :
    totalSize (pieceId :: rest) = pieceSize pieceId + totalSize rest := by
  simp [totalSize]

theorem catalog_pieceSize_pos : ∀ pid ∈ catalogIds, 0 < pieceSize pid := by decide

theorem catalog_shape_nodup : ∀ d ∈ PIECE_DEFINITIONS, d.initialShape.Nodup := by decide

theorem vcoords_nodup {vtab : String → List PieceVariation}
    (hv : ∀ pid, ∀ v ∈ vtab pid, v.coords =
      normalizeCoords (getTransformedCoordinates pid v.rotation v.isFlipped))
    {pieceId : String} (hpid : pieceId ∈ catalogIds) {v : PieceVariation}
    (hvmem : v ∈ vtab pieceId) : v.coords.Nodup := by
  obtain ⟨d, hd, hdmem, _⟩ := find?_exists_of_mem hpid
  rw [hv pieceId v hvmem]
  exact normalizeCoords_nodup
    (getTransformedCoordinates_nodup hd (catalog_shape_nodup d hdmem) _ _)

/-- Soundness of the backtracking search: on a well-formed grid whose empty
cells have total area equal to the remaining pieces' total area, a returned
solution lists exactly the remaining piece ids in order, and its pieces'
replayed absolute cells are pairwise disjoint and exactly the grid's empty
cells. -/
theorem solveRecursivelyWith_exact_cover (vtab : String → List PieceVariation)
    (hv : ∀ pid, ∀ v ∈ vtab pid, v.coords =
      normalizeCoords (getTransformedCoordinates pid v.rotation v.isFlipped)) :
    ∀ (rem : List String) (grid : List (List Bool)) (sol : List PlacedPiece),
    GridWF grid →
    (∀ pid ∈ rem, pid ∈ catalogIds) →
    countEmpty grid = totalSize rem →
    solveRecursivelyWith vtab rem grid = some sol →
    sol.map PlacedPiece.id = rem ∧
    (sol.flatMap cellsOfPlaced).Nodup ∧
    (∀ q : Coordinate, q ∈ sol.flatMap cellsOfPlaced ↔
      (InBoundsCell q ∧ getCellB grid q.x.toNat q.y.toNat = false)) := by
  intro rem
  induction rem with
  | nil =>
    intro grid sol hW hcat harea hs
    simp only [solveRecursivelyWith] at hs
    injection hs with hs
    subst hs
    have h0 : countEmpty grid = 0 := harea
    refine ⟨rfl, by simp, ?_⟩
    intro q
    simp only [List.flatMap_nil, List.not_mem_nil, false_iff, not_and]
    intro hqb hqe
    rw [countEmpty_zero_occupied h0 hqb] at hqe
    cases hqe
  | cons pieceId restIds ih =>
    intro grid sol hW hcat harea hs
    cases hfe : findEmptyCell grid with
    | none =>
      exfalso
      have h0 := findEmptyCell_none_countEmpty hfe
      have hpos := catalog_pieceSize_pos pieceId (hcat _ (List.mem_cons_self _ _))
      rw [harea, totalSize_cons] at h0
      omega
    | some p =>
      simp only [solveRecursivelyWith, hfe] at hs
      obtain ⟨v, hvmem, hfit, r, hrec, hsol⟩ := tryVariations_eq_some hs
      subst hsol
      have hpid : pieceId ∈ catalogIds := hcat _ (List.mem_cons_self _ _)
      have hcs := hv pieceId v hvmem
      have hfits := fitsAt_spec hfit
      have hin : ∀ c ∈ v.coords, InBoundsCell (translateCell p.1 p.2 c) :=
        fun c hc => (hfits c hc).1
      have hemp : ∀ c ∈ v.coords,
          getCellB grid ((p.1 : Int) + c.x).toNat ((p.2 : Int) + c.y).toNat = false :=
        fun c hc => (hfits c hc).2
      have hnd : v.coords.Nodup := vcoords_nodup hv hpid hvmem
      have hndtr : (v.coords.map (translateCell p.1 p.2)).Nodup :=
        hnd.map (translateCell_inj p.1 p.2)
      have hW1 : GridWF (placeCells grid p.1 p.2 v.coords) :=
        gridWF_placeCells v.coords grid hW hin
      have hcount := countEmpty_placeCells v.coords grid hW hin hemp hndtr
      have hlen : v.coords.length = pieceSize pieceId := by
        rw [hcs, normalizeCoords_length, getTransformedCoordinates_length]
      have harea1 : countEmpty (placeCells grid p.1 p.2 v.coords) = totalSize restIds := by
        rw [totalSize_cons] at harea
        omega
      obtain ⟨ihA, ihB, ihC⟩ := ih (placeCells grid p.1 p.2 v.coords) r hW1
        (fun pid h => hcat pid (List.mem_cons_of_mem _ h)) harea1 hrec
      have hcells := cellsOfPlaced_mkPlacedPiece_perm pieceId p.1 p.2 v hcs
      have hocc := @getCellB_placeCells p.1 p.2 v.coords grid hW hin
      refine ⟨?_, ?_, ?_⟩
      · rw [List.map_cons, ihA]
        rfl
      · rw [List.flatMap_cons]
        refine List.Nodup.append (hcells.nodup_iff.mpr hndtr) ihB ?_
        intro a ha1 ha2
        have haM := hcells.mem_iff.mp ha1
        have hab : InBoundsCell a := by
          rcases List.mem_map.mp haM with ⟨c, hc, htr⟩
          rw [← htr]
          exact hin c hc
        have hocc1 : getCellB (placeCells grid p.1 p.2 v.coords) a.x.toNat a.y.toNat = true :=
          (hocc a hab).mpr (Or.inr haM)
        have := (ihC a).mp ha2
        rw [hocc1] at this
        cases this.2
      · intro q
        rw [List.flatMap_cons, List.mem_append]
        constructor
        · rintro (hq | hq)
          · have hqM := hcells.mem_iff.mp hq
            rcases List.mem_map.mp hqM with ⟨c, hc, htr⟩
            subst htr
            exact ⟨hin c hc, hemp c hc⟩
          · obtain ⟨hqb, hqe⟩ := (ihC q).mp hq
            refine ⟨hqb, ?_⟩
            cases hgd : getCellB grid q.x.toNat q.y.toNat with
            | false => rfl
            | true =>
              rw [(hocc q hqb).mpr (Or.inl hgd)] at hqe
              cases hqe
        · rintro ⟨hqb, hqe⟩
          by_cases hM : q ∈ v.coords.map (translateCell p.1 p.2)
          · exact Or.inl (hcells.mem_iff.mpr hM)
          · refine Or.inr ((ihC q).mpr ⟨hqb, ?_⟩)
            cases hg1 : getCellB (placeCells grid p.1 p.2 v.coords) q.x.toNat q.y.toNat with
            | false => rfl
            | true =>
              rcases (hocc q hqb).mp hg1 with hgd | hMq
              · rw [hgd] at hqe; cases hqe
              · exact absurd hMq hM

/-- Round-trip soundness of the solver's stored records: every piece of a
returned solution was built by `mkPlacedPiece` from one of its id's cached
variations at the empty cell the scan selected, and replaying it through the
geometry transform reproduces exactly the translated variation cells the
search marked occupied. -/
theorem solveRecursivelyWith_roundtrip (vtab : String → List PieceVariation)
    (hv : ∀ pid, ∀ v ∈ vtab pid, v.coords =
      normalizeCoords (getTransformedCoordinates pid v.rotation v.isFlipped)) :
    ∀ (rem : List String) (grid : List (List Bool)) (sol : List PlacedPiece),
    solveRecursivelyWith vtab rem grid = some sol →
    ∀ piece ∈ sol, ∃ v ∈ vtab piece.id, ∃ ex ey : Nat, ∃ g : List (List Bool),
      findEmptyCell g = some (ex, ey) ∧ fitsAt g ex ey v.coords = true ∧
      piece = mkPlacedPiece piece.id ex ey v ∧
      (cellsOfPlaced piece).Perm (v.coords.map (translateCell ex ey)) := by
  intro rem
  induction rem with
  | nil =>
    intro grid sol hs piece hmem
    simp only [solveRecursivelyWith] at hs
    injection hs with hs
    subst hs
    cases hmem
  | cons pieceId restIds ih =>
    intro grid sol hs piece hmem
    cases hfe : findEmptyCell grid with
    | none =>
      simp only [solveRecursivelyWith, hfe] at hs
      injection hs with hs
      subst hs
      cases hmem
    | some p =>
      simp only [solveRecursivelyWith, hfe] at hs
      obtain ⟨v, hvmem, hfit, r, hrec, hsol⟩ := tryVariations_eq_some hs
      subst hsol
      rcases List.mem_cons.mp hmem with rfl | hr
      · have hid : (mkPlacedPiece pieceId p.1 p.2 v).id = pieceId := rfl
        refine ⟨v, by rw [hid]; exact hvmem, p.1, p.2, grid, by rw [← hfe], hfit, ?_, ?_⟩
        · rw [hid]
        · exact cellsOfPlaced_mkPlacedPiece_perm pieceId p.1 p.2 v (hv pieceId v hvmem)
      · exact ih _ r hrec piece hr

/-- Correspondence of the fueled variation loop with the plain one, given a
pointwise correspondence of the recursive calls. -/
theorem tryVariationsFuel_eq {recurseF : List (List Bool) → Option (Option (List PlacedPiece))}
    {recurse : List (List Bool) → Option (List PlacedPiece)}
    (hr : ∀ g, recurseF g = some (recurse g))
    (grid : List (List Bool)) (ex ey : Nat) (pieceId : String) :
    ∀ vs : List PieceVariation,
    tryVariationsFuel recurseF grid ex ey pieceId vs =
      some (tryVariations recurse grid ex ey pieceId vs)
  | [] => rfl
  | v :: vs => by
    simp only [tryVariationsFuel, tryVariations]
    by_cases hfit : fitsAt grid ex ey v.coords = true
    · rw [if_pos hfit, if_pos hfit, hr]
      cases recurse (placeCells grid ex ey v.coords) with
      | some r => rfl
      | none => exact tryVariationsFuel_eq hr grid ex ey pieceId vs
    · rw [if_neg hfit, if_neg hfit]
      exact tryVariationsFuel_eq hr grid ex ey pieceId vs

/-- The solver's recursion depth is bounded by the remaining-piece count:
with any fuel above `rem.length`, the fueled solver never exhausts its fuel
and returns exactly the unfueled solver's answer.  This is the termination
argument: every recursive call runs on the tail of the piece list. -/
theorem solveFuelWith_eq (vtab : String → List PieceVariation) :
    ∀ (rem : List String) (fuel : Nat) (grid : List (List Bool)),
    rem.length < fuel →
    solveFuelWith vtab fuel rem grid = some (solveRecursivelyWith vtab rem grid) := by
  intro rem
  induction rem with
  | nil =>
    intro fuel grid hfuel
    cases fuel with
    | zero => cases hfuel
    | succ f => rfl
  | cons pieceId restIds ih =>
    intro fuel grid hfuel
    cases fuel with
    | zero => cases hfuel
    | succ f =>
      simp only [solveFuelWith, solveRecursivelyWith]
      cases hfe : findEmptyCell grid with
      | none => rfl
      | some p =>
        exact tryVariationsFuel_eq
          (fun g => ih f g (by simpa using Nat.lt_of_succ_lt_succ hfuel)) grid p.1 p.2 pieceId
          (vtab pieceId)

/-! ## Helpers for the claim theorems -/

theorem countEmpty_initialGrid : countEmpty initialGrid = 55 := by decide

theorem totalSize_catalogIds : totalSize catalogIds = 55 := by decide

theorem catalogIds_nodup : catalogIds.Nodup := by decide

theorem totalSize_perm {order : List String} (h : order.Perm catalogIds) :
    totalSize order = totalSize catalogIds :=
  (h.map pieceSize).sum_eq

theorem allGridCells_nodup : allGridCells.Nodup := by decide

theorem getCellB_initialGrid_false :
    ∀ x, x < GRID_COLS → ∀ y, y < GRID_ROWS → getCellB initialGrid x y = false := by decide

theorem mem_allGridCells (q : Coordinate) : q ∈ allGridCells ↔ InBoundsCell q := by
  unfold allGridCells
  constructor
  · intro h
    rcases List.mem_map.mp h with ⟨p, hp, rfl⟩
    obtain ⟨h1, h2⟩ := lt_of_mem_scanPositions p hp
    refine ⟨?_, ?_, ?_, ?_⟩ <;> simp only <;> omega
  · intro hq
    obtain ⟨h1, h2, h3, h4⟩ := hq
    refine List.mem_map.mpr
      ⟨(q.x.toNat, q.y.toNat), mem_scanPositions_of_lt _ (by omega) _ (by omega), ?_⟩
    cases q
    simp only [Coordinate.mk.injEq]
    constructor <;> simp only at h1 h2 h3 h4 <;> omega

theorem vtab_coords_spec {vtab : String → List PieceVariation}
    (hvt : ∀ pid, (vtab pid).Perm (precomputedVariations pid)) :
    ∀ pid, ∀ v ∈ vtab pid, v.coords =
      normalizeCoords (getTransformedCoordinates pid v.rotation v.isFlipped) :=
  fun pid v hm => precomputedVariations_coords pid v ((hvt pid).mem_iff.mp hm)

theorem lockedCountFor_bounds (n : Int) : 3 ≤ lockedCountFor n ∧ lockedCountFor n ≤ 10 := by
  unfold lockedCountFor
  omega

/-! ## The claim theorems -/

/-- C1: for the fixed 12-piece catalog on the 5×11 grid, every solution
`generateValidBoard` returns — for any shuffled variation cache `vtab` and any
shuffled piece order — has exactly 12 entries, one per catalog piece id with
no id repeated, and the absolute cells obtained by transforming each stored
piece's shape by its stored orientation and translating by its stored origin
are pairwise disjoint and together cover all 55 grid cells (they are a
permutation of `allGridCells`, the duplicate-free list of all 55 cells). -/
theorem claim_C1 (vtab : String → List PieceVariation)
    (hvt : ∀ pid, (vtab pid).Perm (precomputedVariations pid))
    (order : List String) (horder : order.Perm catalogIds)
    (sol : List PlacedPiece) (hsol : generateValidBoard vtab order = some sol) :
    sol.length = 12 ∧ (sol.map PlacedPiece.id).Nodup ∧
    (sol.map PlacedPiece.id).Perm catalogIds ∧
    (sol.flatMap cellsOfPlaced).Perm allGridCells := by
  have hv := vtab_coords_spec hvt
  have hcat : ∀ pid ∈ order, pid ∈ catalogIds := fun pid h => (horder.mem_iff).mp h
  have harea : countEmpty initialGrid = totalSize order := by
    rw [countEmpty_initialGrid, totalSize_perm horder, totalSize_catalogIds]
  obtain ⟨hA, hB, hC⟩ := solveRecursivelyWith_exact_cover vtab hv order initialGrid sol
    gridWF_initialGrid hcat harea hsol
  refine ⟨?_, ?_, ?_, ?_⟩
  · have h1 := congrArg List.length hA
    rw [List.length_map] at h1
    rw [h1, horder.length_eq]
    decide
  · rw [hA]
    exact (horder.nodup_iff).mpr catalogIds_nodup
  · rw [hA]
    exact horder
  · rw [List.perm_ext_iff_of_nodup hB allGridCells_nodup]
    intro q
    rw [hC q, mem_allGridCells q]
    constructor
    · rintro ⟨hqb, _⟩
      exact hqb
    · intro hqb
      obtain ⟨h1, h2, h3, h4⟩ := hqb
      exact ⟨⟨h1, h2, h3, h4⟩,
        getCellB_initialGrid_false q.x.toNat (by omega) q.y.toNat (by omega)⟩

theorem claim_C1_witness :
    generateValidBoard precomputedVariations goodOrder = some goodSolution ∧
    goodSolution.length = 12 ∧ (goodSolution.map PlacedPiece.id).Nodup ∧
    (goodSolution.map PlacedPiece.id).Perm catalogIds ∧
    (goodSolution.flatMap cellsOfPlaced).Perm allGridCells := by
  have h : generateValidBoard precomputedVariations goodOrder = some goodSolution := by decide
  have hmain := claim_C1 precomputedVariations (fun _ => List.Perm.refl _) goodOrder
    (by decide) goodSolution h
  exact ⟨h, hmain.1, hmain.2.1, hmain.2.2.1, hmain.2.2.2⟩

/-- C2: for every catalog piece id, origin, rotation in {0, 90, 180, 270},
flip state and 5×11 board, `isValidPlacement` agrees with the specification
predicate `specIsValidPlacement`: false exactly when some transformed cell
translated by the origin leaves `[0,11) × [0,5)` or lands on a non-null board
cell, true otherwise. -/
theorem claim_C2 (pieceId : String) (hpid : pieceId ∈ catalogIds)
    (gridX gridY : Int) (rotation : Nat)
    (hrot : rotation ∈ ([0, 90, 180, 270] : List Nat)) (isFlipped : Bool)
    (board : List (List (Option String)))
    (hboard : board.length = GRID_ROWS ∧ ∀ row ∈ board, row.length = GRID_COLS) :
    isValidPlacement pieceId gridX gridY rotation isFlipped board =
      specIsValidPlacement pieceId gridX gridY rotation isFlipped board := by
  unfold isValidPlacement specIsValidPlacement
  rw [Bool.eq_iff_iff]
  constructor
  · intro hall
    simp only [Bool.not_eq_true', decide_eq_false_iff_not]
    rintro ⟨c, hc, hP⟩
    have h := List.all_eq_true.mp hall c hc
    simp only at h
    split at h
    · cases h
    · split at h
      · cases h
      · rename_i hout hcell
        push_neg at hout
        rcases hP with h1 | h1 | h1 | h1 | h1
        · omega
        · omega
        · omega
        · omega
        · exact absurd h1 (by simpa using hcell)
  · intro hne
    simp only [Bool.not_eq_true', decide_eq_false_iff_not] at hne
    push_neg at hne
    apply List.all_eq_true.mpr
    intro c hc
    obtain ⟨h1, h2, h3, h4, h5⟩ := hne c hc
    simp only
    rw [if_neg (by push_neg; exact ⟨h1, h2, h3, h4⟩), if_neg (by simpa using h5)]

theorem claim_C2_witness :
    ("L" ∈ catalogIds) ∧ ((90 : Nat) ∈ ([0, 90, 180, 270] : List Nat)) ∧
    (emptyBoardGrid.length = GRID_ROWS ∧ ∀ row ∈ emptyBoardGrid, row.length = GRID_COLS) ∧
    isValidPlacement "L" 2 2 90 false emptyBoardGrid =
      specIsValidPlacement "L" 2 2 90 false emptyBoardGrid := by
  have hb : emptyBoardGrid.length = GRID_ROWS ∧
      ∀ row ∈ emptyBoardGrid, row.length = GRID_COLS := by decide
  exact ⟨by decide, by decide, hb, claim_C2 "L" (by decide) 2 2 90 (by decide) false
    emptyBoardGrid hb⟩

/-- C3: the claim that `generateValidBoard` retries only a bounded number of
times and surfaces a hard failure is contradicted by the code: the retry
recursion has no counter and no failure value.  Concretely, the catalog-order
shuffle outcome admits no solution, and on the shuffle stream that always
produces it, no number `n` of unrolled attempts ever yields a result — the
source function would recurse forever instead of surfacing a failure. -/
theorem claim_C3_retries_unbounded :
    solveRecursively initialGrid catalogIds = none ∧
    ∀ n : Nat, generateValidBoardAttempts precomputedVariations (fun _ => catalogIds) n = none := by
  have h : solveRecursively initialGrid catalogIds = none := by decide
  refine ⟨h, ?_⟩
  intro n
  rw [generateValidBoardAttempts, List.findSome?_eq_none_iff]
  intro k _
  exact h

/-- C4: every piece of a solution returned by the solver — for any shuffled
variation cache — was stored by re-deriving the anchor offset so that
replaying the stored `(x, y, rotation, isFlipped)` through
`getTransformedCoordinates` and translating by `(x, y)` (as `getBoardGrid`
does, i.e. `cellsOfPlaced`) reproduces exactly the translated variation cells
the search marked occupied when it placed that variation at the selected
empty cell. -/
theorem claim_C4 (vtab : String → List PieceVariation)
    (hvt : ∀ pid, (vtab pid).Perm (precomputedVariations pid))
    (rem : List String) (grid : List (List Bool)) (sol : List PlacedPiece)
    (hsol : solveRecursivelyWith vtab rem grid = some sol) :
    ∀ piece ∈ sol, ∃ v ∈ vtab piece.id, ∃ ex ey : Nat, ∃ g : List (List Bool),
      findEmptyCell g = some (ex, ey) ∧ fitsAt g ex ey v.coords = true ∧
      piece = mkPlacedPiece piece.id ex ey v ∧
      (cellsOfPlaced piece).Perm (v.coords.map (translateCell ex ey)) :=
  solveRecursivelyWith_roundtrip vtab (vtab_coords_spec hvt) rem grid sol hsol

theorem claim_C4_witness :
    solveRecursivelyWith precomputedVariations ["L"] initialGrid = some singleLSolution ∧
    (∀ piece ∈ singleLSolution, ∃ v ∈ precomputedVariations piece.id,
      ∃ ex ey : Nat, ∃ g : List (List Bool),
      findEmptyCell g = some (ex, ey) ∧ fitsAt g ex ey v.coords = true ∧
      piece = mkPlacedPiece piece.id ex ey v ∧
      (cellsOfPlaced piece).Perm (v.coords.map (translateCell ex ey))) := by
  have h : solveRecursivelyWith precomputedVariations ["L"] initialGrid =
      some singleLSolution := by decide
  exact ⟨h, claim_C4 precomputedVariations (fun _ => List.Perm.refl _) ["L"] initialGrid
    singleLSolution h⟩

/-- C5: for every piece id and rotation in {0, 90, 180, 270},
`getTransformedCoordinates` equals the spec transform — flip (negate x)
first, then `(x,y) ↦ (−y,x)` iterated `rotation/90` times, no translation —
and an id not in the catalog yields the empty list rather than an error. -/
theorem claim_C5 :
    (∀ (pieceId : String) (rotation : Nat) (isFlipped : Bool),
      rotation ∈ ([0, 90, 180, 270] : List Nat) →
      getTransformedCoordinates pieceId rotation isFlipped =
        specTransform pieceId rotation isFlipped) ∧
    (∀ (pieceId : String) (rotation : Nat) (isFlipped : Bool),
      pieceId ∉ catalogIds → getTransformedCoordinates pieceId rotation isFlipped = []) := by
  have hstep : ∀ (k : Nat) (p : Coordinate), rotatePoint p k = rotationStep^[k] p := by
    intro k
    induction k with
    | zero => intro p; rfl
    | succ k ihk =>
      intro p
      rw [rotatePoint, Function.iterate_succ_apply, ← ihk]
      rfl
  constructor
  · intro pid r f hr
    unfold specTransform
    cases hd : PIECE_DEFINITIONS.find? (fun p => p.id == pid) with
    | none => rw [getTransformedCoordinates_of_no_find hd]
    | some d =>
      rw [getTransformedCoordinates_of_find hd]
      fin_cases hr <;>
        (apply List.map_congr_left; intro p _; rw [hstep])
  · intro pid r f h
    exact getTransformedCoordinates_of_no_find (find?_eq_none_of_not_mem h) r f

theorem claim_C5_witness :
    getTransformedCoordinates "L" 90 false = specTransform "L" 90 false ∧
    getTransformedCoordinates "Z" 270 true = [] :=
  ⟨claim_C5.1 "L" 90 false (by decide), claim_C5.2 "Z" 270 true (by decide)⟩

set_option maxHeartbeats 4000000 in
theorem variation_cache_core : ∀ e ∈ PIECE_DEFINITIONS,
    1 ≤ (precomputedVariations e.id).length ∧ (precomputedVariations e.id).length ≤ 8 ∧
    ((precomputedVariations e.id).map (fun v => v.coords)).Nodup ∧
    (precomputedVariations e.id).length = (orbitShapes e.id).dedup.length := by decide

/-- C6: for every catalog piece, every shuffle outcome of its precomputed
variation list has between 1 and 8 entries, pairwise structurally distinct
normalized coordinate sequences, and as many entries as there are distinct
normalized shapes in the piece's orbit under the 8 flip×rotation
combinations. -/
theorem claim_C6 (d : PieceDef) (hd : d ∈ PIECE_DEFINITIONS) (vl : List PieceVariation)
    (hvl : vl.Perm (precomputedVariations d.id)) :
    1 ≤ vl.length ∧ vl.length ≤ 8 ∧ (vl.map (fun v => v.coords)).Nodup ∧
    vl.length = (orbitShapes d.id).dedup.length := by
  obtain ⟨h1, h2, h3, h4⟩ := variation_cache_core d hd
  generalize hps : precomputedVariations d.id = ps at hvl h1 h2 h3 h4
  generalize hos : (orbitShapes d.id).dedup.length = m at h4 ⊢
  rw [hvl.length_eq]
  exact ⟨h1, h2, ((hvl.map (fun v => v.coords)).nodup_iff).mpr h3, h4⟩

theorem claim_C6_witness :
    firstPieceDef ∈ PIECE_DEFINITIONS ∧
    (1 ≤ (precomputedVariations firstPieceDef.id).length ∧
      (precomputedVariations firstPieceDef.id).length ≤ 8 ∧
      ((precomputedVariations firstPieceDef.id).map (fun v => v.coords)).Nodup ∧
      (precomputedVariations firstPieceDef.id).length =
        (orbitShapes firstPieceDef.id).dedup.length) :=
  ⟨by decide, claim_C6 firstPieceDef (by decide) _ (List.Perm.refl _)⟩

/-- C7: for every integer level number and every 12-piece shuffled full
solution, `generateLevel` returns only locked pieces, exactly
`clamp(round(10 − ((levelNum−1)/99)·(10−3)), 3, 10)` of them; in particular
the count is 10 at level 1, 3 at level 100, and levels 0 and 1000 clamp to
the same counts as levels 1 and 100. -/
theorem claim_C7 (levelNum : Int) (shuffledSolution : List PlacedPiece)
    (h12 : shuffledSolution.length = 12) :
    (generateLevelWith shuffledSolution levelNum).all (fun p => p.isLocked) = true ∧
    ((generateLevelWith shuffledSolution levelNum).length : Int) = lockedCountFor levelNum ∧
    lockedCountFor 1 = 10 ∧ lockedCountFor 100 = 3 ∧
    lockedCountFor 0 = lockedCountFor 1 ∧ lockedCountFor 1000 = lockedCountFor 100 := by
  obtain ⟨hlo, hhi⟩ := lockedCountFor_bounds levelNum
  have hval1 : lockedCountFor 1 = 10 := by
    unfold lockedCountFor
    rw [round_eq]
    norm_num
  have hval100 : lockedCountFor 100 = 3 := by
    unfold lockedCountFor
    rw [round_eq]
    norm_num
  have hval0 : lockedCountFor 0 = 10 := by
    unfold lockedCountFor
    rw [round_eq]
    norm_num
  have hval1000 : lockedCountFor 1000 = 3 := by
    unfold lockedCountFor
    rw [round_eq]
    norm_num
  refine ⟨?_, ?_, hval1, hval100, by rw [hval0, hval1], by rw [hval1000, hval100]⟩
  · apply List.all_eq_true.mpr
    intro p hp
    rcases List.mem_map.mp hp with ⟨q, _, rfl⟩
    rfl
  · unfold generateLevelWith
    rw [List.length_map, List.length_take, h12]
    omega

theorem claim_C7_witness :
    twelvePieces.length = 12 ∧
    ((generateLevelWith twelvePieces 1).all (fun p => p.isLocked) = true ∧
      ((generateLevelWith twelvePieces 1).length : Int) = lockedCountFor 1 ∧
      lockedCountFor 1 = 10 ∧ lockedCountFor 100 = 3 ∧
      lockedCountFor 0 = lockedCountFor 1 ∧ lockedCountFor 1000 = lockedCountFor 100) := by
  have h12 : twelvePieces.length = 12 := by decide
  exact ⟨h12, claim_C7 1 twelvePieces h12⟩

/-- C8: the backtracking search terminates because every recursive call runs
on the tail of the remaining-piece list: for every variation table, grid and
piece list, a fuel budget of the remaining-piece count plus one is never
exhausted, and the fueled solver computes exactly the unfueled solver's
result (each piece contributing only the finitely many variations of its
cached list at the single selected empty cell). -/
theorem claim_C8 (vtab : String → List PieceVariation) (rem : List String)
    (grid : List (List Bool)) (fuel : Nat) (hfuel : rem.length < fuel) :
    solveFuelWith vtab fuel rem grid = some (solveRecursivelyWith vtab rem grid) :=
  solveFuelWith_eq vtab rem fuel grid hfuel

theorem claim_C8_witness :
    (["L"] : List String).length < 2 ∧
    solveFuelWith precomputedVariations 2 ["L"] initialGrid =
      some (solveRecursivelyWith precomputedVariations ["L"] initialGrid) :=
  ⟨by decide, claim_C8 precomputedVariations ["L"] initialGrid 2 (by decide)⟩

/-- C9: the concrete scenario for the catalog piece `L` (initial shape
`[(0,0),(1,0),(0,1)]`): rotated 90° unflipped its occupied absolute cells at
origin (2,2) are each shape point mapped once by `(x,y) ↦ (−y,x)` then
translated by (2,2), namely `[(2,2),(2,3),(1,2)]`; the placement at (2,2) on
the empty 5×11 board is valid and the same orientation at (10,4) is not. -/
theorem claim_C9 :
    firstPieceDef.id = "L" ∧
    firstPieceDef.initialShape = ([⟨0,0⟩, ⟨1,0⟩, ⟨0,1⟩] : List Coordinate) ∧
    isValidPlacement "L" 2 2 90 false emptyBoardGrid = true ∧
    (getTransformedCoordinates "L" 90 false).map
        (fun c => (⟨2 + c.x, 2 + c.y⟩ : Coordinate)) =
      ([⟨0,0⟩, ⟨1,0⟩, ⟨0,1⟩] : List Coordinate).map
        (fun p => (⟨2 + (rotationStep p).x, 2 + (rotationStep p).y⟩ : Coordinate)) ∧
    (getTransformedCoordinates "L" 90 false).map
        (fun c => (⟨2 + c.x, 2 + c.y⟩ : Coordinate)) =
      ([⟨2,2⟩, ⟨2,3⟩, ⟨1,2⟩] : List Coordinate) ∧
    isValidPlacement "L" 10 4 90 false emptyBoardGrid = false := by decide

/-- C10: for a piece id not in the catalog, `isValidPlacement` returns true
for every origin, rotation, flip state and board: the unknown id yields an
empty transformed-cell list, so no check can fail and the placement of a
nonexistent piece is reported valid rather than rejected. -/
theorem claim_C10 (pieceId : String) (hpid : pieceId ∉ catalogIds)
    (gridX gridY : Int) (rotation : Nat) (isFlipped : Bool)
    (currentBoard : List (List (Option String))) :
    isValidPlacement pieceId gridX gridY rotation isFlipped currentBoard = true := by
  unfold isValidPlacement
  rw [getTransformedCoordinates_of_no_find (find?_eq_none_of_not_mem hpid)]
  rfl

theorem claim_C10_witness :
    ("Z" ∉ catalogIds) ∧
    isValidPlacement "Z" 3 (-2) 45 true [[some "L"]] = true :=
  ⟨by decide, claim_C10 "Z" (by decide) 3 (-2) 45 true [[some "L"]]⟩

end IQCore
